import Mathlib

/-!
# Verification of the OfflineQueue event store and upload pipeline

Shallow embedding of `src/OfflineQueue.ts` (the persisted event queue and
batched upload pipeline of the mobile-pulse SDK).  The persisted store is a
`List QueuedEvent`; the async storage / network layer is made explicit:
storage availability is a pair of booleans (read side / write side), the
network response per batch is an oracle `Nat → BatchOutcome` indexed by the
position of the batch in the run.
-/

namespace OfflineQueue

/-- One buffered telemetry record, mirroring the `QueuedEvent` interface:
`{ id, timestamp, type, data, retryCount, maxRetries }`.  The `data` field is
`any` in the source and is never interpreted by the queue; we model it as an
opaque string.  `type` is one of the five kind strings. -/
structure QueuedEvent where
  id : String
  timestamp : Int
  type : String
  data : String
  retryCount : Nat
  maxRetries : Nat
deriving DecidableEq, Repr

/-- The `UploadConfig` interface.  `apiKey?: string` is optional, hence
`Option String`. -/
structure UploadConfig where
  serverUrl : String
  apiKey : Option String
  batchSize : Nat
  maxRetries : Nat
  retryDelay : Nat
deriving DecidableEq, Repr

/-- The constructor defaults: `serverUrl https://your-server.com/upload,
batchSize 50, maxRetries 3, retryDelay 5000`, no API key. -/
def defaultConfig : UploadConfig :=
  { serverUrl := "https://your-server.com/upload"
    apiKey := none
    batchSize := 50
    maxRetries := 3
    retryDelay := 5000 }

/-- The hard-coded store capacity: `if (events.length > 1000) events.splice(0,
events.length - 1000)` in `saveEvent`. -/
def capacity : Nat := 1000

/-- Core of `saveEvent` acting on the stored list: push the new event, then
drop the oldest events so that at most `capacity` remain
(`events.push(queuedEvent); if (events.length > 1000)
events.splice(0, events.length - 1000)`). -/
def saveEventList (events : List QueuedEvent) (e : QueuedEvent) : List QueuedEvent :=
  let events' := events ++ [e]
  if events'.length > capacity then events'.drop (events'.length - capacity) else events'

/-- The event record built by `saveEvent` before pushing: fresh `id` and
`timestamp`, `retryCount: 0`, and `maxRetries` snapshotted from the current
configuration. -/
def mkQueuedEvent (cfg : UploadConfig) (id : String) (now : Int)
    (type : String) (data : String) : QueuedEvent :=
  { id := id, timestamp := now, type := type, data := data
    retryCount := 0, maxRetries := cfg.maxRetries }

/-- One step of the loop of `handleUploadFailure` for a single failed event id:
`findIndex` the first stored event with that id; if found, increment its
`retryCount`, and if the incremented count reaches `maxRetries`
(`retryCount >= maxRetries`), splice it out instead. -/
def bumpRetryOrEvict : List QueuedEvent → String → List QueuedEvent
  | [], _ => []
  | e :: rest, fid =>
    if e.id = fid then
      let e' := { e with retryCount := e.retryCount + 1 }
      if e'.maxRetries ≤ e'.retryCount then rest else e' :: rest
    else
      e :: bumpRetryOrEvict rest fid

/-- `handleUploadFailure`: for each event of the failed batch, in order, apply
the retry-increment-or-evict step to the stored list. -/
def handleUploadFailure (events : List QueuedEvent) (batch : List QueuedEvent) :
    List QueuedEvent :=
  batch.foldl (fun evs failedEvent => bumpRetryOrEvict evs failedEvent.id) events

/-- `removeUploadedEvents`: keep exactly the stored events whose id is not in
the uploaded batch (`events.filter((e) => !uploadedIds.has(e.id))`). -/
def removeUploadedEvents (events : List QueuedEvent) (uploadedBatch : List QueuedEvent) :
    List QueuedEvent :=
  let uploadedIds := uploadedBatch.map (fun e => e.id)
  events.filter (fun e => ¬ e.id ∈ uploadedIds)

/-- Recursive worker for `createBatches`.  The fuel argument only bounds the
number of loop iterations (`events.length` iterations always suffice when
`batchSize ≥ 1`); it makes the recursion structural. -/
def createBatchesGo (batchSize : Nat) : Nat → List QueuedEvent → List (List QueuedEvent)
  | 0, _ => []
  | fuel + 1, events =>
    if events = [] then []
    else events.take batchSize :: createBatchesGo batchSize fuel (events.drop batchSize)

/-- `createBatches`: consecutive slices of at most `batchSize` events, in
order (`events.slice(i, i + batchSize)` for `i = 0, batchSize, 2*batchSize,
...`).  The JS loop `for (i = 0; i < length; i += batchSize)` does not
terminate for `batchSize = 0`; that degenerate case (never reachable from the
configuration defaults) is modelled as producing no batches. -/
def createBatches (events : List QueuedEvent) (batchSize : Nat) :
    List (List QueuedEvent) :=
  if batchSize = 0 then [] else createBatchesGo batchSize events.length events

/-- Outcome of one `fetch` for a batch: `ok` is a 2xx response; `failed`
covers a non-2xx status (thrown in `uploadBatch`), a transport error, or a
timeout — all of which land in the same `catch` branch. -/
inductive BatchOutcome
  | ok
  | failed
deriving DecidableEq, Repr

/-- The body of the single `uploadBatch` step after the response is known:
on success remove exactly the ids of the batch, on failure run the
retry-increment-or-evict pass over the batch. -/
def uploadBatchStep (outcome : BatchOutcome) (events : List QueuedEvent)
    (batch : List QueuedEvent) : List QueuedEvent :=
  match outcome with
  | .ok => removeUploadedEvents events batch
  | .failed => handleUploadFailure events batch

/-- The `for (const batch of batches) await this.uploadBatch(batch)` loop of
`uploadEvents`.  `uploadBatch` catches its own errors (the failure path calls
`handleUploadFailure` and returns normally), so the loop always proceeds to
the next batch.  Returns the final stored list together with the list of
batches actually POSTed, in order.  `i` is the index of the first batch in the
run, used to query the response oracle. -/
def processBatches (oracle : Nat → BatchOutcome) :
    List (List QueuedEvent) → List QueuedEvent → Nat →
    List QueuedEvent × List (List QueuedEvent)
  | [], events, _ => (events, [])
  | batch :: rest, events, i =>
    let events' := uploadBatchStep (oracle i) events batch
    let r := processBatches oracle rest events' (i + 1)
    (r.1, batch :: r.2)

/-- `uploadEvents` (one run of the upload pipeline), with the single-flight
guard already passed.  Reads the stored snapshot; if empty, returns at once —
before the connectivity probe, so no network traffic at all; if offline,
returns without touching the store; otherwise partitions the snapshot into
batches and processes them sequentially.  Result: final store and the list of
POSTed batches. -/
def uploadEvents (events : List QueuedEvent) (online : Bool)
    (oracle : Nat → BatchOutcome) (batchSize : Nat) :
    List QueuedEvent × List (List QueuedEvent) :=
  if events.isEmpty then (events, [])
  else if !online then (events, [])
  else processBatches oracle (createBatches events batchSize) events 0

/-- The HTTP request issued by `uploadBatch`, at the structural level: method,
URL, header list, and the decoded JSON body `{ events, timestamp }`. -/
structure UploadRequest where
  method : String
  url : String
  headers : List (String × String)
  bodyEvents : List QueuedEvent
  bodyTimestamp : Int
deriving DecidableEq, Repr

/-- The request `uploadBatch` builds: a POST to `serverUrl` with body
`JSON.stringify(... events: batch, timestamp: Date.now() ...)` and headers
`Content-Type: application/json` plus, spread in behind the guard
`apiKey && ...`, an `Authorization: Bearer` header.  That guard is
JavaScript truthiness: the
`Authorization` header is added only when `apiKey` is present *and*
non-empty (the empty string is falsy). -/
def buildUploadRequest (cfg : UploadConfig) (batch : List QueuedEvent) (now : Int) :
    UploadRequest :=
  { method := "POST"
    url := cfg.serverUrl
    headers :=
      ("Content-Type", "application/json") ::
        (match cfg.apiKey with
          | some k => if k = "" then [] else [("Authorization", "Bearer " ++ k)]
          | none => [])
    bodyEvents := batch
    bodyTimestamp := now }

/-- The persistence error of the error taxonomy (`AsyncStorage` rejection). -/
inductive StorageError
  | unavailable
deriving DecidableEq, Repr

/-- `getStoredEvents` with an explicit storage medium: on a read failure or
unparseable content the `catch` branch returns `[]` instead of propagating
the error. -/
def getStoredEvents (readOk : Bool) (persisted : List QueuedEvent) :
    List QueuedEvent :=
  if readOk then persisted else []

/-- A full `saveEvent` call against a storage medium whose read side
(`AsyncStorage.getItem`) and write side (`AsyncStorage.setItem`) may each be
unavailable.  Returns the persisted collection afterwards and the error the
caller observes.  The whole body is wrapped in `try { ... } catch (error) {
console.error(...) }`, so a write failure leaves the persisted collection
unchanged and the promise seen by the caller still resolves normally: the second
component is always `none`. -/
def saveEventRun (readOk writeOk : Bool) (persisted : List QueuedEvent)
    (ev : QueuedEvent) : List QueuedEvent × Option StorageError :=
  let events := getStoredEvents readOk persisted
  let events' := saveEventList events ev
  if writeOk then (events', none) else (persisted, none)

/-! ## Reachable store states

`Op` is one mutation of the persisted collection by the queue itself:
an append (`saveEvent` with a fresh event, `retryCount = 0`), the removal
after a successful batch, or the retry pass after a failed batch. -/

/-- One store mutation performed by the queue. -/
inductive Op
  | save (cfg : UploadConfig) (id : String) (now : Int) (type : String) (data : String)
  | success (batch : List QueuedEvent)
  | failure (batch : List QueuedEvent)

/-- Apply one mutation to the stored list. -/
def applyOp (events : List QueuedEvent) : Op → List QueuedEvent
  | .save cfg id now type data => saveEventList events (mkQueuedEvent cfg id now type data)
  | .success batch => removeUploadedEvents events batch
  | .failure batch => handleUploadFailure events batch

/-- Retry-bound invariant: every stored event satisfies
`retryCount ≤ maxRetries`. -/
def RetryInv (events : List QueuedEvent) : Prop :=
  ∀ e ∈ events, e.retryCount ≤ e.maxRetries

/-! ## Single-flight guard

`uploadEvents` begins with `if (this.isUploading) return; this.isUploading =
true;` and ends with `finally { this.isUploading = false; }`.  JavaScript runs
the code between two `await` suspension points atomically on the event loop,
and there is no `await` between the guard check and the flag assignment, so
check-and-set is one atomic step.  We model each concurrent `uploadEvents`
invocation as a task: `idle` (not yet past the guard), `running k` (past the
guard, `k` suspension points left before the `finally`), `done` (returned). -/

/-- Program counter of one `uploadEvents` invocation. -/
inductive TaskState
  | idle
  | running (stepsLeft : Nat)
  | done
deriving DecidableEq, Repr

/-- Whether a task is inside the guarded section (a run in flight). -/
def TaskState.isRunning : TaskState → Bool
  | .running _ => true
  | _ => false

/-- Scheduler state: the `isUploading` flag plus the states of all
invocations. -/
structure SchedState where
  isUploading : Bool
  tasks : List TaskState

/-- Number of runs in flight. -/
def runsInFlight (s : SchedState) : Nat :=
  s.tasks.countP (fun t => t.isRunning)

/-- One atomic step of the event loop: some invocation advances between two
suspension points. -/
inductive SchedStep : SchedState → SchedState → Prop
  | guardBlocked (l₁ l₂ : List TaskState) :
      SchedStep ⟨true, l₁ ++ TaskState.idle :: l₂⟩ ⟨true, l₁ ++ TaskState.done :: l₂⟩
  | guardEnter (l₁ l₂ : List TaskState) (k : Nat) :
      SchedStep ⟨false, l₁ ++ TaskState.idle :: l₂⟩ ⟨true, l₁ ++ TaskState.running k :: l₂⟩
  | work (f : Bool) (l₁ l₂ : List TaskState) (n : Nat) :
      SchedStep ⟨f, l₁ ++ TaskState.running (n + 1) :: l₂⟩ ⟨f, l₁ ++ TaskState.running n :: l₂⟩
  | finallyExit (f : Bool) (l₁ l₂ : List TaskState) :
      SchedStep ⟨f, l₁ ++ TaskState.running 0 :: l₂⟩ ⟨false, l₁ ++ TaskState.done :: l₂⟩

/-- Initial state: flag clear, every invocation waiting at the guard. -/
def SchedInit (s : SchedState) : Prop :=
  s.isUploading = false ∧ ∀ t ∈ s.tasks, t = TaskState.idle

/-- Reachability under the event-loop interleaving. -/
def SchedReach (s₀ s : SchedState) : Prop :=
  Relation.ReflTransGen SchedStep s₀ s

/-! ## Specification-side definitions

These follow the wording of the spec, to be compared with the definitions above,
which are translated from the source. -/

/-- The last `n` elements of a list (the "newest `n` events"): everything but
the first `length - n`. -/
def lastN (n : Nat) (l : List QueuedEvent) : List QueuedEvent :=
  l.drop (l.length - n)

/-- Modelled from the retry-accounting sentence of the spec: the per-event effect
of a failed batch with id set `ids` — an event of the batch has `retryCount`
incremented by exactly 1 and is dropped when the incremented count reaches
its own `maxRetries`; an event outside the batch is untouched. -/
def retryAccountingSpec (ids : List String) (e : QueuedEvent) : Option QueuedEvent :=
  if e.id ∈ ids then
    if e.maxRetries ≤ e.retryCount + 1 then none
    else some { e with retryCount := e.retryCount + 1 }
  else some e

/-! ## Concrete fixtures for counterexamples and witnesses -/

/-- A queued event with id `"e1"` and the default retry limit. -/
def cxEvent1 : QueuedEvent :=
  { id := "e1", timestamp := 0, type := "custom", data := "d1"
    retryCount := 0, maxRetries := 3 }

/-- A queued event with id `"e2"` and the default retry limit. -/
def cxEvent2 : QueuedEvent :=
  { id := "e2", timestamp := 0, type := "custom", data := "d2"
    retryCount := 0, maxRetries := 3 }

/-- A response oracle that fails the first batch of the run and accepts every
later one. -/
def cxOracle : Nat → BatchOutcome :=
  fun i => if i = 0 then BatchOutcome.failed else BatchOutcome.ok

/-- A configuration whose API key is configured but equal to the empty
string. -/
def cxCfgEmptyKey : UploadConfig :=
  { defaultConfig with apiKey := some "" }

/-- A configuration with the non-empty API key `"k0"`. -/
def cxCfgKey : UploadConfig :=
  { defaultConfig with apiKey := some "k0" }

/-- A queued event with id `"e3"`, already retried twice, limit 3. -/
def cxEvent3 : QueuedEvent :=
  { id := "e3", timestamp := 0, type := "crash", data := "d3"
    retryCount := 2, maxRetries := 3 }

/-! # Theorems -/

/-! ## Capacity (C2) -/

/-- A list no longer than `n` is its own newest-`n` suffix. -/
theorem lastN_of_le (n : Nat) (l : List QueuedEvent) (h : l.length ≤ n) :
    lastN n l = l := by
  simp [lastN, Nat.sub_eq_zero_of_le h]

/-- The newest-`n` suffix never holds more than `n` elements. -/
theorem lastN_length_le (n : Nat) (l : List QueuedEvent) : (lastN n l).length ≤ n := by
  simp [lastN]
  omega

/-- One append always leaves exactly the newest `capacity` elements of the
extended list. -/
theorem saveEventList_eq_lastN (s : List QueuedEvent) (e : QueuedEvent) :
    saveEventList s e = lastN capacity (s ++ [e]) := by
  unfold saveEventList lastN
  dsimp only
  split
  · rfl
  · next h => rw [Nat.sub_eq_zero_of_le (Nat.le_of_not_lt h), List.drop_zero]

/-- Truncating to the newest `n` before appending more does not change the
newest `n` of the whole. -/
theorem lastN_append_lastN (n : Nat) (l m : List QueuedEvent) :
    lastN n (lastN n l ++ m) = lastN n (l ++ m) := by
  by_cases h : l.length ≤ n
  · rw [lastN_of_le n l h]
  · simp only [lastN, List.length_append, List.length_drop]
    rw [List.drop_append_eq_append_drop, List.drop_append_eq_append_drop, List.drop_drop]
    simp only [List.length_drop]
    congr 1
    · congr 1
      omega
    · congr 1
      omega

/-- C2: starting from any store holding at most `capacity` (1000) events,
after any sequence of appends the store holds at most `capacity` events and
is exactly the newest `capacity` events of the whole appended sequence, in
enqueue order - the oldest events are the ones evicted (FIFO). -/
theorem saveEvent_capacity_fifo (s es : List QueuedEvent) (hs : s.length ≤ capacity) :
    (es.foldl saveEventList s).length ≤ capacity ∧
    es.foldl saveEventList s = lastN capacity (s ++ es) := by
  induction es generalizing s with
  | nil => exact ⟨by simpa using hs, by simp [lastN_of_le capacity s hs]⟩
  | cons e es ih =>
    have h1 : (saveEventList s e).length ≤ capacity := by
      rw [saveEventList_eq_lastN]
      exact lastN_length_le _ _
    obtain ⟨hl, he⟩ := ih (saveEventList s e) h1
    refine ⟨hl, ?_⟩
    rw [List.foldl_cons, he, saveEventList_eq_lastN, lastN_append_lastN]
    simp

/-- Witness for C2 at a concrete store and append. -/
theorem saveEvent_capacity_fifo_witness :
    ([cxEvent1] : List QueuedEvent).length ≤ capacity ∧
    (([cxEvent2].foldl saveEventList [cxEvent1]).length ≤ capacity ∧
      [cxEvent2].foldl saveEventList [cxEvent1] = lastN capacity ([cxEvent1] ++ [cxEvent2])) :=
  ⟨by decide, saveEvent_capacity_fifo [cxEvent1] [cxEvent2] (by decide)⟩

/-! ## C5 -/

/-- C5: after a successful batch, the store contains no event whose id is in
that batch; the remaining events form a sublist of the original store (same
fields, original relative order); and every event whose id is not in the
batch is retained. -/
theorem removeUploadedEvents_exact (events batch : List QueuedEvent) :
    (∀ e ∈ removeUploadedEvents events batch, e.id ∉ batch.map (fun b => b.id)) ∧
    (removeUploadedEvents events batch).Sublist events ∧
    ∀ e ∈ events, e.id ∉ batch.map (fun b => b.id) → e ∈ removeUploadedEvents events batch := by
  refine ⟨?_, List.filter_sublist _, ?_⟩
  · intro e he
    have h := (List.mem_filter.mp he).2
    simpa using h
  · intro e he hid
    exact List.mem_filter.mpr ⟨he, by simpa using hid⟩

/-- Witness for C5 at a concrete store and batch. -/
theorem removeUploadedEvents_exact_witness :
    (∀ e ∈ removeUploadedEvents [cxEvent1, cxEvent2] [cxEvent2], e.id ∉ [cxEvent2].map (fun b => b.id)) ∧
    (removeUploadedEvents [cxEvent1, cxEvent2] [cxEvent2]).Sublist [cxEvent1, cxEvent2] ∧
    ∀ e ∈ [cxEvent1, cxEvent2], e.id ∉ [cxEvent2].map (fun b => b.id) →
      e ∈ removeUploadedEvents [cxEvent1, cxEvent2] [cxEvent2] :=
  removeUploadedEvents_exact [cxEvent1, cxEvent2] [cxEvent2]

/-! ## C6 -/

/-- C6: a run of `uploadEvents` on an empty store returns before the
connectivity probe and the batch loop: it issues no network request and
leaves the store unchanged. -/
theorem uploadEvents_empty_noop (online : Bool) (oracle : Nat → BatchOutcome) (bs : Nat) :
    uploadEvents [] online oracle bs = ([], []) := by
  simp [uploadEvents]

/-! ## C9 -/

/-- C9 counterexample: with the storage medium unavailable at the write, the
append leaves the persisted state unchanged and the event unqueued, but the
caller observes no `StorageError` - the error is swallowed by the catch
block, refuting the claim that the error is reported to the caller. -/
theorem saveEvent_storage_error_cex :
    saveEventRun true false [cxEvent1] cxEvent2 = ([cxEvent1], none) := rfl

/-- C9 (amended): if the persistence medium is unavailable during an append,
that single append fails silently: the event is not enqueued, the persisted
state is not updated, and the store does not retry internally, but the error
is caught and logged inside `saveEvent` rather than reported to the
caller. -/
theorem saveEvent_storage_error_silent (readOk : Bool) (persisted : List QueuedEvent)
    (ev : QueuedEvent) :
    saveEventRun readOk false persisted ev = (persisted, none) := by
  simp [saveEventRun]

/-! ## C10 -/

/-- C10: when the persisted collection cannot be read, `getStoredEvents`
returns the empty list instead of propagating the error; consequently an
append performed while reads fail persists a collection containing only the
newly appended event, silently discarding every previously queued event. -/
theorem getStoredEvents_error_mask (persisted : List QueuedEvent) (ev : QueuedEvent) :
    getStoredEvents false persisted = [] ∧
    saveEventRun false true persisted ev = ([ev], none) :=
  ⟨rfl, rfl⟩

/-! ## C1 -/

/-- The batch loop always POSTs every batch it is given, whatever the
outcomes. -/
theorem processBatches_snd (oracle : Nat → BatchOutcome) (bs : List (List QueuedEvent))
    (events : List QueuedEvent) (i : Nat) :
    (processBatches oracle bs events i).2 = bs := by
  induction bs generalizing events i with
  | nil => rfl
  | cons b rest ih => simp [processBatches, ih]

/-- C1 counterexample: two events in singleton batches, the first batch
fails and the second succeeds.  The run still attempts the second batch (two
POSTs go out) and removes its event in the same run, refuting the claim that
a failed batch stops the run and that events of later batches receive no
removal. -/
theorem uploadEvents_halt_cex :
    (uploadEvents [cxEvent1, cxEvent2] true cxOracle 1).2.length = 2 ∧
    ∀ e ∈ (uploadEvents [cxEvent1, cxEvent2] true cxOracle 1).1, e.id ≠ "e2" := by
  decide

/-- C1 (amended): when a batch of a run fails, the retry-increment-or-evict
operation is applied to every event id of that batch and the run then
CONTINUES - every batch of the partition is attempted, regardless of the
outcomes of earlier batches. -/
theorem uploadEvents_failed_batch_continues (events : List QueuedEvent)
    (oracle : Nat → BatchOutcome) (bs : Nat) (hne : events ≠ []) :
    (uploadEvents events true oracle bs).2 = createBatches events bs ∧
    ∀ (s batch : List QueuedEvent) (rest : List (List QueuedEvent)) (i : Nat),
      oracle i = BatchOutcome.failed →
      processBatches oracle (batch :: rest) s i =
        ((processBatches oracle rest (handleUploadFailure s batch) (i + 1)).1,
          batch :: (processBatches oracle rest (handleUploadFailure s batch) (i + 1)).2) := by
  constructor
  · have hE : events.isEmpty = false := by simpa using hne
    simp [uploadEvents, hE, processBatches_snd]
  · intro s batch rest i hfail
    simp [processBatches, uploadBatchStep, hfail]

/-- Witness for C1 at a concrete store whose first batch fails. -/
theorem uploadEvents_failed_batch_continues_witness :
    (([cxEvent1] : List QueuedEvent) ≠ []) ∧
    (uploadEvents [cxEvent1] true cxOracle 1).2 = createBatches [cxEvent1] 1 :=
  ⟨by decide, (uploadEvents_failed_batch_continues [cxEvent1] cxOracle 1 (by decide)).1⟩

/-! ## C4 -/

/-- The retry-increment-or-evict step preserves the retry bound. -/
theorem bumpRetryOrEvict_retryInv (fid : String) :
    ∀ s : List QueuedEvent, RetryInv s → RetryInv (bumpRetryOrEvict s fid) := by
  intro s
  induction s with
  | nil =>
    intro _ e he
    simp [bumpRetryOrEvict] at he
  | cons a rest ih =>
    intro h
    have hrest : RetryInv rest := fun x hx => h x (List.mem_cons_of_mem _ hx)
    have ha : a.retryCount ≤ a.maxRetries := h a (List.mem_cons_self _ _)
    intro e he
    simp only [bumpRetryOrEvict] at he
    split at he
    · split at he
      · exact hrest e he
      · next hmax =>
        rcases List.mem_cons.mp he with h1 | h2
        · subst h1
          simp only
          omega
        · exact hrest e h2
    · rcases List.mem_cons.mp he with h1 | h2
      · subst h1
        exact ha
      · exact ih hrest e h2

/-- Failure handling for a whole batch preserves the retry bound. -/
theorem handleUploadFailure_retryInv (batch : List QueuedEvent) :
    ∀ s : List QueuedEvent, RetryInv s → RetryInv (handleUploadFailure s batch) := by
  induction batch with
  | nil => intro s h; exact h
  | cons b rest ih =>
    intro s h
    exact ih (bumpRetryOrEvict s b.id) (bumpRetryOrEvict_retryInv b.id s h)

/-- Every event stored after an append was stored before or is the new
event. -/
theorem saveEventList_mem_append (s : List QueuedEvent) (e e' : QueuedEvent)
    (h : e' ∈ saveEventList s e) : e' ∈ s ++ [e] := by
  unfold saveEventList at h
  dsimp only at h
  split at h
  · exact List.mem_of_mem_drop h
  · exact h

/-- Each store mutation preserves the retry bound. -/
theorem applyOp_retryInv (s : List QueuedEvent) (op : Op) (h : RetryInv s) :
    RetryInv (applyOp s op) := by
  cases op with
  | save cfg id now type data =>
    intro e he
    rcases List.mem_append.mp (saveEventList_mem_append s _ e he) with h1 | h2
    · exact h e h1
    · rw [List.mem_singleton.mp h2]
      exact Nat.zero_le _
  | success batch =>
    intro e he
    exact h e ((List.filter_sublist _).mem he)
  | failure batch =>
    exact handleUploadFailure_retryInv batch s h

/-- After a retry-increment-or-evict step, every stored event either was
already stored untouched or sits strictly below its retry limit. -/
theorem bumpRetryOrEvict_mem_or_lt (fid : String) :
    ∀ s : List QueuedEvent, ∀ e ∈ bumpRetryOrEvict s fid,
      e ∈ s ∨ e.retryCount < e.maxRetries := by
  intro s
  induction s with
  | nil =>
    intro e he
    simp [bumpRetryOrEvict] at he
  | cons a rest ih =>
    intro e he
    simp only [bumpRetryOrEvict] at he
    split at he
    · split at he
      · exact Or.inl (List.mem_cons_of_mem _ he)
      · next hmax =>
        rcases List.mem_cons.mp he with h1 | h2
        · subst h1
          right
          simp only
          omega
        · exact Or.inl (List.mem_cons_of_mem _ h2)
    · rcases List.mem_cons.mp he with h1 | h2
      · subst h1
        exact Or.inl (List.mem_cons_self _ _)
      · rcases ih e h2 with h3 | h3
        · exact Or.inl (List.mem_cons_of_mem _ h3)
        · exact Or.inr h3

/-- The same, after failure handling for a whole batch. -/
theorem handleUploadFailure_mem_or_lt (batch : List QueuedEvent) :
    ∀ s : List QueuedEvent, ∀ e ∈ handleUploadFailure s batch,
      e ∈ s ∨ e.retryCount < e.maxRetries := by
  induction batch with
  | nil => intro s e he; exact Or.inl he
  | cons b rest ih =>
    intro s e he
    rcases ih (bumpRetryOrEvict s b.id) e he with h1 | h1
    · rcases bumpRetryOrEvict_mem_or_lt b.id s e h1 with h2 | h2
      · exact Or.inl h2
      · exact Or.inr h2
    · exact Or.inr h1

/-- C4: in every store state reachable by appends, successful-batch removals
and failed-batch retry handling from a state satisfying
`retryCount ≤ maxRetries` for all events, that bound still holds for all
events; and failure handling never leaves an event it bumped at or above its
limit - each survivor was either stored untouched or is strictly below its
limit. -/
theorem retryCount_le_maxRetries_reachable (s : List QueuedEvent) (ops : List Op)
    (h : RetryInv s) :
    RetryInv (ops.foldl applyOp s) ∧
    ∀ (batch : List QueuedEvent), ∀ e ∈ handleUploadFailure s batch,
      e ∈ s ∨ e.retryCount < e.maxRetries := by
  refine ⟨?_, fun batch e he => handleUploadFailure_mem_or_lt batch s e he⟩
  induction ops generalizing s with
  | nil => exact h
  | cons op rest ih => exact ih (applyOp s op) (applyOp_retryInv s op h)

/-- Witness for C4 at a concrete store and operation sequence. -/
theorem retryCount_le_maxRetries_reachable_witness :
    RetryInv [cxEvent1] ∧
    (RetryInv (List.foldl applyOp [cxEvent1] [Op.failure [cxEvent1]]) ∧
      ∀ (batch : List QueuedEvent), ∀ e ∈ handleUploadFailure [cxEvent1] batch,
        e ∈ [cxEvent1] ∨ e.retryCount < e.maxRetries) :=
  ⟨by intro e he; rw [List.mem_singleton.mp he]; decide,
    retryCount_le_maxRetries_reachable [cxEvent1] [Op.failure [cxEvent1]]
      (by intro e he; rw [List.mem_singleton.mp he]; decide)⟩

/-! ## C3 -/

/-- The retry-accounting step never changes the id of an event. -/
theorem retryAccountingSpec_id_eq (ids : List String) (e e' : QueuedEvent)
    (h : retryAccountingSpec ids e = some e') : e'.id = e.id := by
  unfold retryAccountingSpec at h
  split at h
  · split at h
    · cases h
    · have h2 := Option.some_inj.mp h
      rw [← h2]
  · have h2 := Option.some_inj.mp h
    rw [← h2]

/-- Retry accounting over an empty id set is the identity. -/
theorem filterMap_retrySpec_nil (l : List QueuedEvent) :
    l.filterMap (retryAccountingSpec []) = l := by
  induction l with
  | nil => rfl
  | cons a rest ih => simp [List.filterMap_cons, retryAccountingSpec, ih]

/-- Retry accounting for an id that is not stored is the identity. -/
theorem filterMap_retrySpec_of_not_mem (fid : String) (l : List QueuedEvent)
    (h : fid ∉ l.map (fun e => e.id)) :
    l.filterMap (retryAccountingSpec [fid]) = l := by
  induction l with
  | nil => rfl
  | cons a rest ih =>
    simp only [List.map_cons, List.mem_cons, not_or] at h
    have ha : a.id ≠ fid := fun hh => h.1 hh.symm
    simp [List.filterMap_cons, retryAccountingSpec, ha, ih h.2]

/-- On a store with distinct ids, the source retry-increment-or-evict step
for one id agrees with the retry-accounting description. -/
theorem bumpRetryOrEvict_eq_filterMap (fid : String) (l : List QueuedEvent)
    (h : (l.map (fun e => e.id)).Nodup) :
    bumpRetryOrEvict l fid = l.filterMap (retryAccountingSpec [fid]) := by
  induction l with
  | nil => rfl
  | cons a rest ih =>
    rw [List.map_cons, List.nodup_cons] at h
    by_cases hid : a.id = fid
    · have hrest : fid ∉ rest.map (fun e => e.id) := by
        rw [← hid]
        exact h.1
      have hspec : retryAccountingSpec [fid] a =
          if a.maxRetries ≤ a.retryCount + 1 then none
          else some { a with retryCount := a.retryCount + 1 } := by
        simp [retryAccountingSpec, hid]
      simp only [bumpRetryOrEvict, if_pos hid]
      rw [List.filterMap_cons, hspec, filterMap_retrySpec_of_not_mem fid rest hrest]
      by_cases hmax : a.maxRetries ≤ a.retryCount + 1 <;> simp [hmax]
    · have hspec : retryAccountingSpec [fid] a = some a := by
        simp [retryAccountingSpec, hid]
      simp only [bumpRetryOrEvict, if_neg hid]
      simp [List.filterMap_cons, hspec, ih h.2]

/-- Retry accounting only ever drops ids, so distinctness of ids is
preserved. -/
theorem retrySpec_ids_sublist (ids : List String) (l : List QueuedEvent) :
    ((l.filterMap (retryAccountingSpec ids)).map (fun e => e.id)).Sublist
      (l.map (fun e => e.id)) := by
  induction l with
  | nil => simp
  | cons a rest ih =>
    rw [List.filterMap_cons]
    cases hf : retryAccountingSpec ids a with
    | none =>
      simp only [List.map_cons]
      exact ih.cons _
    | some a' =>
      simp only [List.map_cons]
      rw [retryAccountingSpec_id_eq ids a a' hf]
      exact ih.cons₂ _

/-- Composing one-id retry accounting with accounting for the remaining ids
is accounting for all of them at once. -/
theorem retrySpec_bind_cons (fid : String) (rest : List String) (e : QueuedEvent)
    (hfid : fid ∉ rest) :
    (retryAccountingSpec [fid] e).bind (retryAccountingSpec rest) =
      retryAccountingSpec (fid :: rest) e := by
  by_cases h1 : e.id = fid
  · by_cases h2 : e.maxRetries ≤ e.retryCount + 1
    · simp [retryAccountingSpec, h1, h2]
    · have hb : ({ e with retryCount := e.retryCount + 1 } : QueuedEvent).id ∉ rest := by
        show e.id ∉ rest
        rw [h1]
        exact hfid
      simp [retryAccountingSpec, h1, h2, hb, hfid]
  · simp [retryAccountingSpec, h1]

/-- C3: for a store and a failed batch with distinct ids,
`handleUploadFailure` is exactly the per-event retry accounting of the spec:
every stored event of the batch has `retryCount` incremented by exactly 1;
each such event whose incremented count reaches its own snapshotted
`maxRetries` is removed in the same operation; every other event keeps its
fields and its original relative position. -/
theorem handleUploadFailure_retry_accounting (batch : List QueuedEvent) :
    ∀ events : List QueuedEvent,
      (events.map (fun e => e.id)).Nodup → (batch.map (fun e => e.id)).Nodup →
      handleUploadFailure events batch =
        events.filterMap (retryAccountingSpec (batch.map (fun e => e.id))) := by
  induction batch with
  | nil =>
    intro events _ _
    exact (filterMap_retrySpec_nil events).symm
  | cons b rest ih =>
    intro events h1 h2
    rw [List.map_cons, List.nodup_cons] at h2
    have hstep : handleUploadFailure events (b :: rest) =
        handleUploadFailure (bumpRetryOrEvict events b.id) rest := rfl
    rw [hstep, bumpRetryOrEvict_eq_filterMap b.id events h1]
    have h1' : ((events.filterMap (retryAccountingSpec [b.id])).map (fun e => e.id)).Nodup :=
      (retrySpec_ids_sublist [b.id] events).nodup h1
    rw [ih _ h1' h2.2, List.filterMap_filterMap]
    congr 1
    funext e
    exact retrySpec_bind_cons b.id (rest.map (fun e => e.id)) e h2.1

/-- Witness for C3: one event is bumped and kept, one is bumped to its limit
and evicted, one is untouched. -/
theorem handleUploadFailure_retry_accounting_witness :
    (([cxEvent1, cxEvent3, cxEvent2].map (fun e => e.id)).Nodup ∧
      ([cxEvent1, cxEvent3].map (fun e => e.id)).Nodup) ∧
    handleUploadFailure [cxEvent1, cxEvent3, cxEvent2] [cxEvent1, cxEvent3] =
      [cxEvent1, cxEvent3, cxEvent2].filterMap
        (retryAccountingSpec ([cxEvent1, cxEvent3].map (fun e => e.id))) :=
  ⟨⟨by decide, by decide⟩,
    handleUploadFailure_retry_accounting [cxEvent1, cxEvent3] [cxEvent1, cxEvent3, cxEvent2]
      (by decide) (by decide)⟩

/-! ## C7 -/

/-- C7 counterexample: with the API key configured as the empty string (a
falsy value in JavaScript), the request carries no Authorization header even
though an API key is configured, refuting the claim that the header is
present exactly when an API key is configured. -/
theorem buildUploadRequest_auth_cex :
    cxCfgEmptyKey.apiKey ≠ none ∧
    (buildUploadRequest cxCfgEmptyKey [cxEvent1] 0).headers =
      [("Content-Type", "application/json")] :=
  ⟨by decide, rfl⟩

/-- C7 (amended): every batch delivery is a single POST to the configured
server URL, with a `Content-Type: application/json` header, whose body holds
exactly the events of the batch (each carrying id, timestamp, type, data,
retryCount and maxRetries) and the current epoch time; the
`Authorization: Bearer` header is present exactly when a NON-EMPTY API key
is configured. -/
theorem buildUploadRequest_wire (cfg : UploadConfig) (batch : List QueuedEvent) (now : Int) :
    (buildUploadRequest cfg batch now).method = "POST" ∧
    (buildUploadRequest cfg batch now).url = cfg.serverUrl ∧
    ("Content-Type", "application/json") ∈ (buildUploadRequest cfg batch now).headers ∧
    (buildUploadRequest cfg batch now).bodyEvents = batch ∧
    (buildUploadRequest cfg batch now).bodyTimestamp = now ∧
    ((∃ v, ("Authorization", v) ∈ (buildUploadRequest cfg batch now).headers) ↔
      (∃ k, cfg.apiKey = some k ∧ k ≠ "")) ∧
    ∀ k, cfg.apiKey = some k → k ≠ "" →
      ("Authorization", "Bearer " ++ k) ∈ (buildUploadRequest cfg batch now).headers := by
  refine ⟨rfl, rfl, by simp [buildUploadRequest], rfl, rfl, ?_, ?_⟩
  · cases hk : cfg.apiKey with
    | none => simp [buildUploadRequest, hk]
    | some k =>
      by_cases hke : k = ""
      · subst hke
        simp [buildUploadRequest, hk]
      · simp [buildUploadRequest, hk, hke]
  · intro k hk hke
    simp [buildUploadRequest, hk, hke]

/-- Witness for C7 with a concrete non-empty API key. -/
theorem buildUploadRequest_wire_witness :
    (cxCfgKey.apiKey = some "k0") ∧ ("k0" ≠ "") ∧
    ("Authorization", "Bearer " ++ "k0") ∈ (buildUploadRequest cxCfgKey [cxEvent1] 5).headers :=
  ⟨rfl, by decide,
    (buildUploadRequest_wire cxCfgKey [cxEvent1] 5).2.2.2.2.2.2 "k0" rfl (by decide)⟩

/-! ## C8 -/

/-- Initially no run is in flight and the flag agrees. -/
theorem schedInit_inv (s : SchedState) (h : SchedInit s) :
    runsInFlight s ≤ 1 ∧ (s.isUploading = false → runsInFlight s = 0) := by
  have hz : runsInFlight s = 0 := by
    apply List.countP_eq_zero.mpr
    intro t ht
    rw [h.2 t ht]
    simp [TaskState.isRunning]
  rw [hz]
  exact ⟨Nat.zero_le _, fun _ => rfl⟩

/-- Replacing a non-running task slot does not change the in-flight count. -/
theorem countRunning_split_false (l₁ l₂ : List TaskState) (t : TaskState)
    (ht : t.isRunning = false) :
    (l₁ ++ t :: l₂).countP (fun x => x.isRunning) =
      (l₁ ++ l₂).countP (fun x => x.isRunning) := by
  simp [List.countP_append, List.countP_cons, ht]

/-- A running task slot adds exactly one to the in-flight count. -/
theorem countRunning_split_true (l₁ l₂ : List TaskState) (t : TaskState)
    (ht : t.isRunning = true) :
    (l₁ ++ t :: l₂).countP (fun x => x.isRunning) =
      (l₁ ++ l₂).countP (fun x => x.isRunning) + 1 := by
  simp [List.countP_append, List.countP_cons, ht]
  omega

/-- Every atomic event-loop step preserves the single-flight invariant: at
most one run in flight, and none when the flag is clear. -/
theorem schedStep_inv (s s' : SchedState) (hstep : SchedStep s s')
    (hinv : runsInFlight s ≤ 1 ∧ (s.isUploading = false → runsInFlight s = 0)) :
    runsInFlight s' ≤ 1 ∧ (s'.isUploading = false → runsInFlight s' = 0) := by
  cases hstep with
  | guardBlocked l₁ l₂ =>
    obtain ⟨ha, hb⟩ := hinv
    have ha' : (l₁ ++ TaskState.idle :: l₂).countP (fun t => t.isRunning) ≤ 1 := ha
    rw [countRunning_split_false l₁ l₂ TaskState.idle rfl] at ha'
    refine ⟨?_, ?_⟩
    · show (l₁ ++ TaskState.done :: l₂).countP (fun t => t.isRunning) ≤ 1
      rw [countRunning_split_false l₁ l₂ TaskState.done rfl]
      exact ha'
    · intro hf
      exact Bool.noConfusion hf
  | guardEnter l₁ l₂ k =>
    obtain ⟨ha, hb⟩ := hinv
    have hz : (l₁ ++ TaskState.idle :: l₂).countP (fun t => t.isRunning) = 0 := hb rfl
    rw [countRunning_split_false l₁ l₂ TaskState.idle rfl] at hz
    refine ⟨?_, ?_⟩
    · show (l₁ ++ TaskState.running k :: l₂).countP (fun t => t.isRunning) ≤ 1
      rw [countRunning_split_true l₁ l₂ (TaskState.running k) rfl]
      omega
    · intro hf
      exact Bool.noConfusion hf
  | work f l₁ l₂ n =>
    obtain ⟨ha, hb⟩ := hinv
    have ha' : (l₁ ++ TaskState.running (n + 1) :: l₂).countP (fun t => t.isRunning) ≤ 1 := ha
    rw [countRunning_split_true l₁ l₂ (TaskState.running (n + 1)) rfl] at ha'
    refine ⟨?_, ?_⟩
    · show (l₁ ++ TaskState.running n :: l₂).countP (fun t => t.isRunning) ≤ 1
      rw [countRunning_split_true l₁ l₂ (TaskState.running n) rfl]
      exact ha'
    · intro hf
      have hz : (l₁ ++ TaskState.running (n + 1) :: l₂).countP (fun t => t.isRunning) = 0 := hb hf
      rw [countRunning_split_true l₁ l₂ (TaskState.running (n + 1)) rfl] at hz
      show (l₁ ++ TaskState.running n :: l₂).countP (fun t => t.isRunning) = 0
      rw [countRunning_split_true l₁ l₂ (TaskState.running n) rfl]
      omega
  | finallyExit f l₁ l₂ =>
    obtain ⟨ha, hb⟩ := hinv
    have ha' : (l₁ ++ TaskState.running 0 :: l₂).countP (fun t => t.isRunning) ≤ 1 := ha
    rw [countRunning_split_true l₁ l₂ (TaskState.running 0) rfl] at ha'
    refine ⟨?_, ?_⟩
    · show (l₁ ++ TaskState.done :: l₂).countP (fun t => t.isRunning) ≤ 1
      rw [countRunning_split_false l₁ l₂ TaskState.done rfl]
      omega
    · intro hf
      show (l₁ ++ TaskState.done :: l₂).countP (fun t => t.isRunning) = 0
      rw [countRunning_split_false l₁ l₂ TaskState.done rfl]
      omega

/-- C8: for any number of concurrent `uploadEvents` invocations interleaved
on the event loop, every reachable scheduler state has at most one run in
flight: the guard check-and-set is a single atomic step, so a trigger
arriving while a run is executing returns without starting a second run. -/
theorem singleFlight (s₀ s : SchedState) (h₀ : SchedInit s₀) (h : SchedReach s₀ s) :
    runsInFlight s ≤ 1 := by
  have h' : Relation.ReflTransGen SchedStep s₀ s := h
  clear h
  have hinv : runsInFlight s ≤ 1 ∧ (s.isUploading = false → runsInFlight s = 0) := by
    induction h' with
    | refl => exact schedInit_inv s₀ h₀
    | tail hreach hstep ih => exact schedStep_inv _ _ hstep ih
  exact hinv.1

/-- Witness for C8 at a concrete initial state with two pending
invocations. -/
theorem singleFlight_witness :
    SchedInit ⟨false, [TaskState.idle, TaskState.idle]⟩ ∧
    runsInFlight ⟨false, [TaskState.idle, TaskState.idle]⟩ ≤ 1 :=
  ⟨⟨rfl, by decide⟩, singleFlight _ _ ⟨rfl, by decide⟩ Relation.ReflTransGen.refl⟩

end OfflineQueue
